import Mathlib

/-
  Verification development for the TEM operator bot (src/state.py, src/db.py,
  src/llm.py).  The Python code persists rows in SQLite; here the rows of the
  tables that belong to one submission are embedded as Lean lists carried in a
  `SubState` record, and every handler of state.py becomes a pure function on
  that record.  Chat/e-mail side effects (bot.send_message, Gmail calls) carry
  no state relevant to the claims and are dropped; the string each handler
  returns to the Telegram layer is modelled by a small result inductive.
  Timestamps are abstract `Nat` instants supplied by the caller, mirroring
  `datetime.now()` arguments.
-/

namespace TemBot

/-- assignments.status column: 'pending' | 'confirmed' | 'declined' | 'done'. -/
inductive AStatus
  | pending
  | confirmed
  | declined
  | done
deriving DecidableEq, Repr

/-- submissions.status column. -/
inductive SStatus
  | pendingAssignment
  | assigning
  | underReview
  | accepted
  | rejected
deriving DecidableEq, Repr

/-- One row of the `assignments` table (columns relevant to the logic).
`rid` embeds the AUTOINCREMENT primary key: rows are appended with strictly
increasing `rid`, so "ORDER BY id DESC LIMIT 1" is `getLast?` of the list. -/
structure AssignRow where
  rid : Nat
  user : String
  status : AStatus
  tgId : Option Int
  respondedAt : Option Nat
  doneAt : Option Nat
deriving DecidableEq, Repr

/-- One row of the `followups` table.  `sentAt = none` embeds a NULL sent_at. -/
structure FollowRow where
  fid : Nat
  schedAt : Nat
  sentAt : Option Nat
deriving DecidableEq, Repr

/-- One row of the `rejections` table; `seconds` is the JSON list column. -/
structure RejRow where
  rjid : Nat
  proposedBy : String
  reason : String
  seconds : List String
deriving DecidableEq, Repr

/-- All table rows belonging to one submission, plus its status.  The
`assignment_history` append-only log is kept as the list of picked usernames. -/
structure SubState where
  status : SStatus
  rows : List AssignRow
  nextRid : Nat
  followups : List FollowRow
  nextFid : Nat
  rejections : List RejRow
  nextRjid : Nat
  history : List String
deriving DecidableEq, Repr

/-! ## db.py queries, restricted to one submission -/

/-- db.get_assignment: most recent assignments row for the (submission,
reviewer) pairing — SELECT ... WHERE reviewer = ? ORDER BY id DESC LIMIT 1. -/
def get_assignment (s : SubState) (u : String) : Option AssignRow :=
  (s.rows.filter (fun a => a.user == u)).getLast?

/-- Row transformer of db.update_assignment_status: the SQL UPDATE touches
every row of the pairing (WHERE submission_id AND reviewer_tg_username). -/
def updRow (u : String) (st : AStatus) (tg : Option Int) (now : Nat)
    (a : AssignRow) : AssignRow :=
  if a.user == u then
    { a with
      status := st
      respondedAt := some now
      tgId := match tg with | some t => some t | none => a.tgId }
  else a

/-- db.update_assignment_status. -/
def update_assignment_status (s : SubState) (u : String) (st : AStatus)
    (tg : Option Int) (now : Nat) : SubState :=
  { s with rows := s.rows.map (updRow u st tg now) }

/-- Row transformer of db.mark_assignment_done (sets status='done', done_at). -/
def doneRow (u : String) (tg : Option Int) (now : Nat)
    (a : AssignRow) : AssignRow :=
  if a.user == u then
    { a with
      status := AStatus.done
      doneAt := some now
      tgId := match tg with | some t => some t | none => a.tgId }
  else a

/-- db.mark_assignment_done. -/
def mark_assignment_done (s : SubState) (u : String) (tg : Option Int)
    (now : Nat) : SubState :=
  { s with rows := s.rows.map (doneRow u tg now) }

/-- db.insert_assignment: INSERT a fresh pending row (and the history entry). -/
def insert_assignment (s : SubState) (u : String) : SubState :=
  { s with
    rows := s.rows ++
      [{ rid := s.nextRid, user := u, status := AStatus.pending,
         tgId := none, respondedAt := none, doneAt := none }]
    nextRid := s.nextRid + 1
    history := s.history ++ [u] }

/-- db.clear_pending_assignments: DELETE rows with status pending or declined. -/
def clear_pending_assignments (s : SubState) : SubState :=
  { s with rows := (s.rows.filter
      (fun a => !(a.status == AStatus.pending || a.status == AStatus.declined))) }

/-- db.insert_followup. -/
def insert_followup (s : SubState) (schedAt : Nat) : SubState :=
  { s with
    followups := s.followups ++ [{ fid := s.nextFid, schedAt := schedAt, sentAt := none }]
    nextFid := s.nextFid + 1 }

/-- db.mark_followup_sent: UPDATE followups SET sent_at = now WHERE id = ?. -/
def mark_followup_sent (s : SubState) (fid : Nat) (now : Nat) : SubState :=
  { s with followups := (s.followups.map
      (fun f => if f.fid == fid then { f with sentAt := some now } else f)) }

/-- db.get_active_rejection: latest rejections row — ORDER BY proposed_at DESC
LIMIT 1; insertion order stands in for the nondecreasing proposed_at column. -/
def get_active_rejection (s : SubState) : Option RejRow :=
  s.rejections.getLast?

/-- db.insert_rejection. -/
def insert_rejection (s : SubState) (proposedBy reason : String) : SubState :=
  { s with
    rejections := s.rejections ++
      [{ rjid := s.nextRjid, proposedBy := proposedBy, reason := reason, seconds := [] }]
    nextRjid := s.nextRjid + 1 }

/-- The python body of db.add_second_to_rejection: append the username to the
stored list only when absent. -/
def secondsAfterAdd (old : List String) (u : String) : List String :=
  if old.contains u then old else old ++ [u]

/-- db.add_second_to_rejection: read the row's seconds, append if missing,
write back, and return the new list. -/
def add_second_to_rejection (s : SubState) (rjid : Nat) (u : String) :
    SubState × List String :=
  let old := (((s.rejections.filter (fun r => r.rjid == rjid)).head?).map
    (fun r => r.seconds)).getD []
  let news := secondsAfterAdd old u
  ({ s with rejections := (s.rejections.map
      (fun r => if r.rjid == rjid then { r with seconds := news } else r)) },
   news)

/-! ## Python string primitives

The handlers use python's str.strip/lower/split/startswith and int().  Lean's
own String library implements these with well-founded position loops that the
kernel cannot evaluate, so the python semantics is embedded structurally over
the character list of the string (all data here is ASCII chat usernames and
JSON text). -/

/-- Characters removed by python's default str.strip(). -/
def isWsChar (c : Char) : Bool :=
  c == ' ' || c == '\t' || c == '\n' || c == '\r' || c == '\x0b' || c == '\x0c'

/-- python str.strip(). -/
def pyStrip (s : String) : String :=
  String.mk (((s.toList.dropWhile isWsChar).reverse.dropWhile isWsChar).reverse)

/-- ASCII lowering of one character (python str.lower() on ASCII data). -/
def lowerChar (c : Char) : Char :=
  if c.isUpper then Char.ofNat (c.toNat + 32) else c

/-- python str.lower(). -/
def pyLower (s : String) : String :=
  String.mk (s.toList.map lowerChar)

/-- python str.startswith(pre). -/
def pyStartsWith (s pre : String) : Bool :=
  pre.toList.isPrefixOf s.toList

/-- Worker for python str.split(sep): fuel-recursive scan; the fuel starts at
the length of the scanned list, which every step shortens, so the fuel-out
branch is unreachable. -/
def pySplitGo (sep : List Char) : Nat → List Char → List Char → List (List Char)
  | 0, rest, acc => [acc.reverse ++ rest]
  | _ + 1, [], acc => [acc.reverse]
  | n + 1, c :: cs, acc =>
    if sep.isPrefixOf (c :: cs) then
      acc.reverse :: pySplitGo sep n ((c :: cs).drop sep.length) []
    else
      pySplitGo sep n cs (c :: acc)

/-- python str.split(sep) for a non-empty separator. -/
def pySplit (sep : List Char) (l : List Char) : List (List Char) :=
  pySplitGo sep l.length l []

/-- python int() on a digit string (None in place of ValueError). -/
def pyToNat (l : List Char) : Option Nat :=
  if !l.isEmpty && l.all Char.isDigit then
    some (l.foldl (fun n c => n * 10 + (c.toNat - 48)) 0)
  else none

/-! ## state.py handlers -/

/-- Toast string returned by handle_reviewer_accept. -/
inductive AcceptResult
  | notFound
  | alreadyRecorded
  | confirmedOk
deriving DecidableEq, Repr

/-- Outcome of handle_reviewer_decline (replacement found vs. override hint). -/
inductive DeclineResult
  | notFound
  | alreadyRecorded
  | replaced (newReviewer : String)
  | overrideHint
deriving DecidableEq, Repr

/-- Toast string returned by handle_reviewer_done. -/
inductive DoneResult
  | notUnderReview
  | notAssigned
  | alreadyRecorded
  | doneOk
deriving DecidableEq, Repr

/-- Toast string returned by handle_second; `confirmShown` records whether the
edited proposal message carries the confirm button (the count >= 2 branch). -/
inductive SecondResult
  | noActiveProposal
  | selfSecond
  | recorded (confirmShown : Bool) (count : Nat)
deriving DecidableEq, Repr

/-- Toast string returned by handle_confirm_rejection; `rejectedOk` carries the
reason put into the rejection e-mail ("" when no proposal row was found). -/
inductive ConfirmResult
  | forbidden
  | rejectedOk (reason : String)
deriving DecidableEq, Repr

/-- state._transition_to_under_review: set status, then schedule the first
follow-up at now + followup_interval_days (messaging/e-mail effects dropped). -/
def transition_to_under_review (s : SubState) (now interval : Nat) : SubState :=
  insert_followup { s with status := SStatus.underReview } (now + interval)

/-- state.handle_reviewer_accept. -/
def handle_reviewer_accept (s : SubState) (u : String) (tg : Int)
    (now interval : Nat) : SubState × AcceptResult :=
  match get_assignment s u with
  | none => (s, AcceptResult.notFound)
  | some a =>
    if a.status ≠ AStatus.pending then (s, AcceptResult.alreadyRecorded)
    else
      let s1 := update_assignment_status s u AStatus.confirmed (some tg) now
      let active := s1.rows.filter (fun b => !(b.status == AStatus.declined))
      let stillPending := active.filter (fun b => b.status == AStatus.pending)
      if stillPending.isEmpty && !active.isEmpty then
        (transition_to_under_review s1 now interval, AcceptResult.confirmedOk)
      else (s1, AcceptResult.confirmedOk)

/-- state.handle_reviewer_decline.  `oracle` is the raw reviewer1 string from
llm.pick_replacement_reviewer, `none` when that call raised; the emptiness and
case-insensitive exclusion checks of the source then route to the except
branch, which only posts the manual-override hint. -/
def handle_reviewer_decline (s : SubState) (u : String) (tg : Int)
    (oracle : Option String) (now : Nat) : SubState × DeclineResult :=
  match get_assignment s u with
  | none => (s, DeclineResult.notFound)
  | some a =>
    if a.status ≠ AStatus.pending then (s, DeclineResult.alreadyRecorded)
    else
      let s1 := update_assignment_status s u AStatus.declined (some tg) now
      let excluded := s1.rows.map (fun b => b.user)
      match oracle with
      | none => (s1, DeclineResult.overrideHint)
      | some cand =>
        let newReviewer := pyStrip cand
        if newReviewer == "" ||
            (excluded.map pyLower).contains (pyLower newReviewer) then
          (s1, DeclineResult.overrideHint)
        else
          (insert_assignment s1 newReviewer, DeclineResult.replaced newReviewer)

/-- state._transition_to_accepted: set status 'accepted' (publish date and
acceptance e-mail are external effects computed from the wall clock). -/
def transition_to_accepted (s : SubState) : SubState :=
  { s with status := SStatus.accepted }

/-- state.handle_reviewer_done (the waiting-on-others group message of the else
branch is a pure side effect and is dropped). -/
def handle_reviewer_done (s : SubState) (u : String) (tg : Int) (now : Nat) :
    SubState × DoneResult :=
  if ¬ (s.status = SStatus.underReview ∨ s.status = SStatus.assigning) then
    (s, DoneResult.notUnderReview)
  else
    match get_assignment s u with
    | none => (s, DoneResult.notAssigned)
    | some a =>
      if a.status = AStatus.done then (s, DoneResult.alreadyRecorded)
      else
        let s1 := mark_assignment_done s u (some tg) now
        let active := s1.rows.filter
          (fun b => b.status == AStatus.confirmed || b.status == AStatus.done)
        let doneList := active.filter (fun b => b.status == AStatus.done)
        if !active.isEmpty && active.length ≤ doneList.length then
          (transition_to_accepted s1, DoneResult.doneOk)
        else (s1, DoneResult.doneOk)

/-- state.handle_rejection_proposal: always inserts a fresh proposal row. -/
def handle_rejection_proposal (s : SubState) (proposedBy reason : String) :
    SubState :=
  insert_rejection s proposedBy reason

/-- state.handle_second. -/
def handle_second (s : SubState) (u : String) : SubState × SecondResult :=
  match get_active_rejection s with
  | none => (s, SecondResult.noActiveProposal)
  | some rej =>
    if u = rej.proposedBy then (s, SecondResult.selfSecond)
    else
      let p := add_second_to_rejection s rej.rjid u
      let count := p.2.length
      if 2 ≤ count then (p.1, SecondResult.recorded true count)
      else (p.1, SecondResult.recorded false count)

/-- state.handle_confirm_rejection: operator gate (skipped when no operator is
configured), then set status 'rejected' unconditionally; the e-mail reason
falls back to "" when no rejection row exists. -/
def handle_confirm_rejection (s : SubState) (caller : Int)
    (operatorId : Option Int) : SubState × ConfirmResult :=
  let authorized := match operatorId with
    | some op => caller == op
    | none => true
  if !authorized then (s, ConfirmResult.forbidden)
  else
    let rej := get_active_rejection s
    ({ s with status := SStatus.rejected },
     ConfirmResult.rejectedOk ((rej.map (fun r => r.reason)).getD ""))

/-- state.handle_override: clear pending/declined rows, insert one fresh
pending row per listed reviewer, set status 'assigning'. -/
def handle_override (s : SubState) (newReviewers : List String) : SubState :=
  let s1 := clear_pending_assignments s
  let s2 := newReviewers.foldl insert_assignment s1
  { s2 with status := SStatus.assigning }

/-- state.send_followup: bail out unless status is 'under_review' and some
confirmed/done reviewer remains; otherwise mark the row sent and schedule the
next follow-up at now + followup_interval_days. -/
def send_followup (s : SubState) (fid : Nat) (now interval : Nat) : SubState :=
  if s.status ≠ SStatus.underReview then s
  else
    let active := s.rows.filter
      (fun b => b.status == AStatus.confirmed || b.status == AStatus.done)
    if active.isEmpty then s
    else
      insert_followup (mark_followup_sent s fid now) (now + interval)

/-! ## Event system over one submission -/

/-- One externally triggered handler invocation on a single submission. -/
inductive Ev
  | accept (u : String) (tg : Int) (now interval : Nat)
  | decline (u : String) (tg : Int) (oracle : Option String) (now : Nat)
  | markDone (u : String) (tg : Int) (now : Nat)
  | propose (u reason : String)
  | second (u : String)
  | confirm (caller : Int) (operatorId : Option Int)
  | override (rs : List String)
  | followup (fid now interval : Nat)
deriving DecidableEq, Repr

/-- Effect of one event on the submission's stored state. -/
def step (s : SubState) (e : Ev) : SubState :=
  match e with
  | Ev.accept u tg now interval => (handle_reviewer_accept s u tg now interval).1
  | Ev.decline u tg oracle now => (handle_reviewer_decline s u tg oracle now).1
  | Ev.markDone u tg now => (handle_reviewer_done s u tg now).1
  | Ev.propose u reason => handle_rejection_proposal s u reason
  | Ev.second u => (handle_second s u).1
  | Ev.confirm c op => (handle_confirm_rejection s c op).1
  | Ev.override rs => handle_override s rs
  | Ev.followup fid now interval => send_followup s fid now interval

/-- Run a sequence of events. -/
def run (s : SubState) (evs : List Ev) : SubState :=
  evs.foldl step s

/-- Status of the reviewer's most recent assignment row. -/
def latestStatus (s : SubState) (r : String) : Option AStatus :=
  (get_assignment s r).map (fun a => a.status)

/-! ## New-submission intake (state.handle_new_submission over the whole db) -/

/-- The email_data dict handed over by the Gmail poller. -/
structure EmailData where
  gmail_message_id : String
  gmail_thread_id : Option String
  title : String
  author_name : String
  author_email : String
  medium_url : Option String
  email_subject : String
  email_body : String
deriving DecidableEq, Repr

/-- One row of the `submissions` table (intake-relevant columns). -/
structure Submission where
  sid : Nat
  gmail_message_id : String
  gmail_thread_id : Option String
  title : String
  author_name : String
  author_email : String
  medium_url : Option String
  email_subject : String
  email_body : String
  status : SStatus
deriving DecidableEq, Repr

/-- The JSON object llm.pick_reviewers returns. -/
structure OracleAssignment where
  reviewer1 : String
  reviewer2 : String
  category : String
  reason_zh : String
deriving DecidableEq, Repr

/-- Submission-table wide state touched by intake: the submissions rows plus
the assignment rows created by intake, keyed by submission id. -/
structure Store where
  subs : List Submission
  nextSid : Nat
  assigns : List (Nat × String)
  history : List (Nat × String)
deriving DecidableEq, Repr

/-- db.get_submission_by_gmail_id (gmail_message_id is UNIQUE). -/
def get_submission_by_gmail_id (st : Store) (gid : String) : Option Submission :=
  (st.subs.filter (fun s => s.gmail_message_id == gid)).head?

/-- Number of submissions rows stored for one gmail_message_id. -/
def countByGmailId (st : Store) (gid : String) : Nat :=
  (st.subs.filter (fun s => s.gmail_message_id == gid)).length

/-- db.update_submission_status lifted to the store. -/
def store_update_status (st : Store) (sid : Nat) (status : SStatus) : Store :=
  { st with subs := (st.subs.map
      (fun s => if s.sid == sid then { s with status := status } else s)) }

/-- The submissions row created by db.insert_submission for this email (the
status column defaults to 'pending_assignment'). -/
def mkSub (st : Store) (e : EmailData) : Submission :=
  { sid := st.nextSid
    gmail_message_id := e.gmail_message_id
    gmail_thread_id := e.gmail_thread_id
    title := e.title
    author_name := e.author_name
    author_email := e.author_email
    medium_url := e.medium_url
    email_subject := e.email_subject
    email_body := e.email_body
    status := SStatus.pendingAssignment }

/-- state.handle_new_submission.  `oracle` embeds the llm.pick_reviewers call:
`none` when it raised (the submission stays in pending_assignment limbo and
the operator is messaged), otherwise the returned JSON object.  Messaging is
dropped; every db write of the source is kept in order. -/
def handle_new_submission (st : Store) (e : EmailData)
    (oracle : Option OracleAssignment) : Store :=
  match get_submission_by_gmail_id st e.gmail_message_id with
  | some _ => st
  | none =>
    let sub : Submission := mkSub st e
    let st1 : Store :=
      { st with subs := st.subs ++ [sub], nextSid := st.nextSid + 1 }
    match oracle with
    | none => st1
    | some a =>
      let reviewers := ([a.reviewer1, a.reviewer2].filter
        (fun r => !(r == "") && !(pyStrip r == ""))).map pyStrip
      let st2 := reviewers.foldl
        (fun acc r =>
          { acc with
            assigns := acc.assigns ++ [(sub.sid, r)]
            history := acc.history ++ [(sub.sid, r)] }) st1
      store_update_status st2 sub.sid SStatus.assigning

/-! ## Publish-date computation (state.compute_publish_date) -/

/-- A timezone-local date and time-of-day.  Calendar days are numbered so that
`day % 7` is Python's datetime.weekday(): 0 = Monday, ..., 6 = Sunday. -/
structure LocalDT where
  day : Nat
  hour : Nat
  minute : Nat
deriving DecidableEq, Repr

/-- Python's datetime.weekday() on the day number. -/
def weekday (d : Nat) : Nat := d % 7

/-- The `while candidate.weekday() >= 5: candidate += timedelta(days=1)` loop,
with explicit fuel (the loop body runs at most twice; fuel 7 is ample). -/
def skipWeekend : Nat → Nat → Nat
  | 0, d => d
  | n + 1, d => if 5 ≤ weekday d then skipWeekend n (d + 1) else d

/-- The `int(publish_time_str.split(":")[0/1])` extraction of hour/minute. -/
def parsePublishTime (t : String) : Nat × Nat :=
  let parts := pySplit [':'] t.toList
  ((pyToNat (parts.getD 0 [])).getD 0, (pyToNat (parts.getD 1 [])).getD 0)

/-- state.compute_publish_date: tomorrow, advanced past Saturday/Sunday, at the
configured local time-of-day (candidate.replace(hour, minute, 0, 0)). -/
def compute_publish_date (now : LocalDT) (publish_time_str : String) : LocalDT :=
  let candidate := skipWeekend 7 (now.day + 1)
  let hm := parsePublishTime publish_time_str
  { day := candidate, hour := hm.1, minute := hm.2 }

/-! ## Oracle response parsing (llm._parse_json_response) -/

/-- A backtick character, source of the &#96;&#96;&#96; fence markers. -/
def btick : Char := Char.ofNat 96

/-- The fence-stripping part of llm._parse_json_response: strip, drop the
segment before/inside the first fence pair, drop a leading "json" tag, strip,
rstrip backticks, strip.  python's raw.split("&#96;&#96;&#96;")[1] is total here because
it only runs when raw starts with the fence. -/
def stripFences (raw : String) : String :=
  let r0 := pyStrip raw
  let r1 :=
    if pyStartsWith r0 "```" then
      let seg := String.mk ((pySplit ("```".toList) r0.toList).getD 1 [])
      if pyStartsWith seg "json" then String.mk (seg.toList.drop 4) else seg
    else r0
  let r2 := pyStrip r1
  pyStrip (String.mk ((r2.toList.reverse.dropWhile (fun c => c == btick)).reverse))

/-- llm._parse_json_response, instrumented: `loads` abstracts json.loads
(returning none in place of raising JSONDecodeError); the second component
counts how many json.loads attempts were made before returning.  The source
performs exactly one attempt inside its try block and re-raises on failure. -/
def parse_json_response {J : Type} (loads : String → Option J) (raw : String) :
    Except String J × Nat :=
  let cleaned := stripFences raw
  match loads cleaned with
  | some j => (Except.ok j, 1)
  | none => (Except.error "LLM returned invalid JSON", 1)

/-! ## Helper lemmas -/

theorem filter_map_of_pres {α : Type} (f : α → α) (p : α → Bool)
    (hf : ∀ a, p (f a) = p a) (l : List α) :
    (l.map f).filter p = (l.filter p).map f := by
  induction l with
  | nil => rfl
  | cons a t ih =>
    cases hp : p a <;> simp [List.filter_cons, hf, hp, ih]

theorem filter_map_id {α : Type} (f : α → α) (p : α → Bool)
    (hf : ∀ a, p (f a) = p a) (hid : ∀ a, p a = true → f a = a) (l : List α) :
    (l.map f).filter p = l.filter p := by
  rw [filter_map_of_pres f p hf l]
  have h2 : ∀ a ∈ l.filter p, f a = id a :=
    fun a ha => hid a (List.mem_filter.1 ha).2
  rw [List.map_congr_left h2, List.map_id]

theorem updRow_user (u : String) (st : AStatus) (tg : Option Int) (now : Nat)
    (a : AssignRow) : (updRow u st tg now a).user = a.user := by
  unfold updRow; split <;> rfl

theorem doneRow_user (u : String) (tg : Option Int) (now : Nat)
    (a : AssignRow) : (doneRow u tg now a).user = a.user := by
  unfold doneRow; split <;> rfl

theorem get_assignment_update (s : SubState) (u r : String) (st : AStatus)
    (tg : Option Int) (now : Nat) :
    get_assignment (update_assignment_status s u st tg now) r =
      Option.map (updRow u st tg now) (get_assignment s r) := by
  unfold get_assignment update_assignment_status
  rw [filter_map_of_pres _ _ (fun a => by rw [updRow_user]), List.getLast?_map]

theorem get_assignment_done (s : SubState) (u r : String)
    (tg : Option Int) (now : Nat) :
    get_assignment (mark_assignment_done s u tg now) r =
      Option.map (doneRow u tg now) (get_assignment s r) := by
  unfold get_assignment mark_assignment_done
  rw [filter_map_of_pres _ _ (fun a => by rw [doneRow_user]), List.getLast?_map]

theorem user_of_get_assignment {s : SubState} {r : String} {a : AssignRow}
    (h : get_assignment s r = some a) : (a.user == r) = true :=
  (List.mem_filter.1 (List.mem_of_mem_getLast? h)).2

theorem mem_rows_of_get_assignment {s : SubState} {r : String} {a : AssignRow}
    (h : get_assignment s r = some a) : a ∈ s.rows :=
  List.mem_of_mem_filter (List.mem_of_mem_getLast? h)

/-! ## Concrete sample states (used by witnesses and counterexamples) -/

/-- A fresh pending assignment row for alice. -/
def rowA : AssignRow :=
  { rid := 0, user := "alice", status := AStatus.pending,
    tgId := none, respondedAt := none, doneAt := none }

/-- A fresh pending assignment row for bob. -/
def rowB : AssignRow :=
  { rid := 1, user := "bob", status := AStatus.pending,
    tgId := none, respondedAt := none, doneAt := none }

/-- A submission in 'assigning' with alice as the only picked reviewer. -/
def exA : SubState :=
  { status := SStatus.assigning, rows := [rowA], nextRid := 1,
    followups := [], nextFid := 0, rejections := [], nextRjid := 0,
    history := ["alice"] }

/-- A submission in 'assigning' with alice and bob pending. -/
def exAB : SubState :=
  { status := SStatus.assigning, rows := [rowA, rowB], nextRid := 2,
    followups := [], nextFid := 0, rejections := [], nextRjid := 0,
    history := ["alice", "bob"] }

/-- A rejected submission that still carries alice's stale pending row. -/
def exRejected : SubState :=
  { status := SStatus.rejected, rows := [rowA], nextRid := 1,
    followups := [], nextFid := 0, rejections := [], nextRjid := 0,
    history := ["alice"] }

/-- A submission under review carrying a rejection proposal by alice that
nobody has seconded. -/
def exProposal : SubState :=
  { status := SStatus.underReview, rows := [], nextRid := 0,
    followups := [], nextFid := 0,
    rejections := [{ rjid := 0, proposedBy := "alice", reason := "low quality",
                     seconds := [] }],
    nextRjid := 1, history := [] }

/-- Same proposal with one recorded seconder. -/
def exProposal1 : SubState :=
  { status := SStatus.underReview, rows := [], nextRid := 0,
    followups := [], nextFid := 0,
    rejections := [{ rjid := 0, proposedBy := "alice", reason := "low quality",
                     seconds := ["bob"] }],
    nextRjid := 1, history := [] }

/-! ## C5 -/

/-- C5: handle_reviewer_accept returns not-found when the pairing has no
assignment row; returns already-recorded without mutating anything when the
most recent row is not pending; and only on a pending row mutates state,
setting that row to confirmed with the responder's chat id and timestamp —
after which a duplicate delivery of the same accept is answered
already-recorded with no further mutation. -/
theorem accept_guards_and_duplicate_safety
    (s : SubState) (u : String) (tg : Int) (now interval : Nat) :
    (get_assignment s u = none →
      handle_reviewer_accept s u tg now interval = (s, AcceptResult.notFound))
    ∧ (∀ a, get_assignment s u = some a → a.status ≠ AStatus.pending →
      handle_reviewer_accept s u tg now interval = (s, AcceptResult.alreadyRecorded))
    ∧ (∀ a, get_assignment s u = some a → a.status = AStatus.pending →
      (handle_reviewer_accept s u tg now interval).2 = AcceptResult.confirmedOk
      ∧ get_assignment (handle_reviewer_accept s u tg now interval).1 u =
          some { a with status := AStatus.confirmed, tgId := some tg,
                        respondedAt := some now }
      ∧ ∀ (tg2 : Int) (now2 int2 : Nat),
          handle_reviewer_accept (handle_reviewer_accept s u tg now interval).1
              u tg2 now2 int2 =
            ((handle_reviewer_accept s u tg now interval).1,
             AcceptResult.alreadyRecorded)) := by
  refine ⟨fun h => by simp [handle_reviewer_accept, h],
          fun a h hne => by simp [handle_reviewer_accept, h, hne],
          fun a h hp => ?_⟩
  have hu : (a.user == u) = true := user_of_get_assignment h
  have key : get_assignment
      (update_assignment_status s u AStatus.confirmed (some tg) now) u =
      some { a with status := AStatus.confirmed, tgId := some tg,
                    respondedAt := some now } := by
    rw [get_assignment_update, h]
    simp [updRow, hu]
  have hfst : get_assignment (handle_reviewer_accept s u tg now interval).1 u =
      some { a with status := AStatus.confirmed, tgId := some tg,
                    respondedAt := some now } := by
    simp only [handle_reviewer_accept, h]
    rw [if_neg (by simp [hp])]
    split
    · exact key
    · exact key
  refine ⟨?_, hfst, ?_⟩
  · simp only [handle_reviewer_accept, h]
    rw [if_neg (by simp [hp])]
    split <;> rfl
  · intro tg2 now2 int2
    generalize hg : (handle_reviewer_accept s u tg now interval).1 = s2 at hfst ⊢
    simp [handle_reviewer_accept, hfst]

/-- Witness for C5 at a concrete state: alice's pending row in `exA` is
confirmed by a single accept. -/
theorem accept_guards_and_duplicate_safety_witness :
    (handle_reviewer_accept exA "alice" 11 0 5).2 = AcceptResult.confirmedOk :=
  ((accept_guards_and_duplicate_safety exA "alice" 11 0 5).2.2 rowA
    (by decide) (by decide)).1

/-! ## C4 -/

/-- C4: with a singleton active assignment set, one event from the sole
reviewer advances the submission: a single accept of the lone pending row
moves it to under_review, and a single done-marking of the lone confirmed row
moves it to accepted — no completeness check waits for a second reviewer. -/
theorem single_reviewer_advances
    (s : SubState) (r : String) (a : AssignRow) (tg : Int) (now interval : Nat) :
    (s.rows.filter (fun b => !(b.status == AStatus.declined)) = [a] →
      a.user = r → a.status = AStatus.pending → get_assignment s r = some a →
      (handle_reviewer_accept s r tg now interval).1.status = SStatus.underReview)
    ∧ (s.rows.filter
        (fun b => b.status == AStatus.confirmed || b.status == AStatus.done) = [a] →
      a.user = r → a.status = AStatus.confirmed → s.status = SStatus.underReview →
      get_assignment s r = some a →
      (handle_reviewer_done s r tg now).1.status = SStatus.accepted) := by
  constructor
  · intro hact huser hp h
    have hamem : a ∈ s.rows := by
      have h1 : a ∈ s.rows.filter (fun b => !(b.status == AStatus.declined)) := by
        rw [hact]; exact List.mem_cons_self _ _
      exact List.mem_of_mem_filter h1
    have honly : ∀ b ∈ s.rows, (b.status == AStatus.declined) = false → b = a := by
      intro b hb hbd
      have h1 : b ∈ s.rows.filter (fun b => !(b.status == AStatus.declined)) :=
        List.mem_filter.2 ⟨hb, by simp [hbd]⟩
      rw [hact] at h1
      simpa using h1
    have hpend : (((s.rows.map (updRow r AStatus.confirmed (some tg) now)).filter
        (fun b => !(b.status == AStatus.declined))).filter
        (fun b => b.status == AStatus.pending)) = [] := by
      rw [List.filter_eq_nil_iff]
      intro x hx
      have hx1 : x ∈ s.rows.map (updRow r AStatus.confirmed (some tg) now) :=
        List.mem_of_mem_filter hx
      have hx2 := (List.mem_filter.1 hx).2
      obtain ⟨b, hb, rfl⟩ := List.mem_map.1 hx1
      by_cases hbu : (b.user == r) = true
      · simp [updRow, hbu]
      · have hfb : updRow r AStatus.confirmed (some tg) now b = b := by
          simp [updRow, hbu]
        rw [hfb] at hx2 ⊢
        have hba : b = a := honly b hb (by simpa using hx2)
        subst hba
        exact absurd (by simp [huser]) hbu
    have hne : updRow r AStatus.confirmed (some tg) now a ∈
        ((s.rows.map (updRow r AStatus.confirmed (some tg) now)).filter
          (fun b => !(b.status == AStatus.declined))) := by
      refine List.mem_filter.2 ⟨List.mem_map_of_mem _ hamem, ?_⟩
      simp [updRow, huser]
    simp only [handle_reviewer_accept, h]
    rw [if_neg (by simp [hp])]
    rw [if_pos]
    · rfl
    · have hrw : (update_assignment_status s r AStatus.confirmed (some tg) now).rows
          = s.rows.map (updRow r AStatus.confirmed (some tg) now) := rfl
      rw [hrw, hpend]
      simp [List.isEmpty_iff, List.ne_nil_of_mem hne]
  · intro hact huser hconf hst h
    have hamem : a ∈ s.rows := by
      have h1 : a ∈ s.rows.filter
          (fun b => b.status == AStatus.confirmed || b.status == AStatus.done) := by
        rw [hact]; exact List.mem_cons_self _ _
      exact List.mem_of_mem_filter h1
    have honly : ∀ b ∈ s.rows,
        (b.status == AStatus.confirmed || b.status == AStatus.done) = true → b = a := by
      intro b hb hbd
      have h1 : b ∈ s.rows.filter
          (fun b => b.status == AStatus.confirmed || b.status == AStatus.done) :=
        List.mem_filter.2 ⟨hb, hbd⟩
      rw [hact] at h1
      simpa using h1
    have halldone : ∀ x ∈ ((s.rows.map (doneRow r (some tg) now)).filter
        (fun b => b.status == AStatus.confirmed || b.status == AStatus.done)),
        (x.status == AStatus.done) = true := by
      intro x hx
      have hx1 : x ∈ s.rows.map (doneRow r (some tg) now) :=
        List.mem_of_mem_filter hx
      have hx2 := (List.mem_filter.1 hx).2
      obtain ⟨b, hb, rfl⟩ := List.mem_map.1 hx1
      by_cases hbu : (b.user == r) = true
      · simp [doneRow, hbu]
      · have hfb : doneRow r (some tg) now b = b := by simp [doneRow, hbu]
        rw [hfb] at hx2 ⊢
        have hba : b = a := honly b hb hx2
        subst hba
        exact absurd (by simp [huser]) hbu
    have hmem2 : doneRow r (some tg) now a ∈
        ((s.rows.map (doneRow r (some tg) now)).filter
          (fun b => b.status == AStatus.confirmed || b.status == AStatus.done)) := by
      refine List.mem_filter.2 ⟨List.mem_map_of_mem _ hamem, ?_⟩
      simp [doneRow, huser]
    simp only [handle_reviewer_done]
    rw [if_neg (by simp [hst])]
    simp only [h]
    rw [if_neg (by simp [hconf])]
    rw [if_pos]
    · rfl
    · have hrw : (mark_assignment_done s r (some tg) now).rows
          = s.rows.map (doneRow r (some tg) now) := rfl
      have heqf := List.filter_eq_self.2 halldone
      rw [hrw, heqf]
      simp [List.isEmpty_iff, List.ne_nil_of_mem hmem2]

/-- Witness for C4: in `exA` (alice is the sole reviewer, row pending) one
accept reaches under_review, and after it one done-marking reaches accepted. -/
theorem single_reviewer_advances_witness :
    (handle_reviewer_accept exA "alice" 11 0 5).1.status = SStatus.underReview :=
  (single_reviewer_advances exA "alice" rowA 11 0 5).1
    (by decide) (by decide) (by decide) (by decide)

/-! ## C10 -/

/-- Alice's assignment row after she declined. -/
def rowADeclined : AssignRow :=
  { rid := 0, user := "alice", status := AStatus.declined,
    tgId := some 7, respondedAt := some 3, doneAt := none }

/-- A submission under review whose only row is alice's declined one. -/
def exDeclinedUR : SubState :=
  { status := SStatus.underReview, rows := [rowADeclined], nextRid := 1,
    followups := [], nextFid := 0, rejections := [], nextRjid := 0,
    history := ["alice"] }

/-- C10: for a submission in under_review or assigning, handle_reviewer_done
invoked by a reviewer whose most recent row is declined does not fail — the
only failure answers are missing-row and already-done — so the declined row is
set to done, which puts the reviewer back into the active (confirmed-or-done)
set used by the acceptance check. -/
theorem done_on_declined_row_succeeds
    (s : SubState) (r : String) (a : AssignRow) (tg : Int) (now : Nat) :
    s.status = SStatus.underReview ∨ s.status = SStatus.assigning →
    get_assignment s r = some a → a.status = AStatus.declined →
    (handle_reviewer_done s r tg now).2 = DoneResult.doneOk
    ∧ get_assignment (handle_reviewer_done s r tg now).1 r =
        some { a with status := AStatus.done, tgId := some tg, doneAt := some now }
    ∧ { a with status := AStatus.done, tgId := some tg, doneAt := some now } ∈
        ((handle_reviewer_done s r tg now).1.rows.filter
          (fun b => b.status == AStatus.confirmed || b.status == AStatus.done)) := by
  intro hst h hdecl
  have hu : (a.user == r) = true := user_of_get_assignment h
  have key : get_assignment (mark_assignment_done s r (some tg) now) r =
      some { a with status := AStatus.done, tgId := some tg, doneAt := some now } := by
    rw [get_assignment_done, h]
    simp [doneRow, hu]
  have hmem :
      ({ a with status := AStatus.done, tgId := some tg, doneAt := some now } : AssignRow) ∈
      (mark_assignment_done s r (some tg) now).rows := by
    have hrow : doneRow r (some tg) now a =
        { a with status := AStatus.done, tgId := some tg, doneAt := some now } := by
      simp [doneRow, hu]
    have h1 : doneRow r (some tg) now a ∈ s.rows.map (doneRow r (some tg) now) :=
      List.mem_map_of_mem _ (mem_rows_of_get_assignment h)
    rw [hrow] at h1
    exact h1
  simp only [handle_reviewer_done]
  rw [if_neg (not_not_intro hst)]
  simp only [h]
  rw [if_neg (by simp [hdecl])]
  split
  · exact ⟨rfl, key, List.mem_filter.2 ⟨hmem, by simp⟩⟩
  · exact ⟨rfl, key, List.mem_filter.2 ⟨hmem, by simp⟩⟩

/-- Witness for C10: alice, having declined, marks done on `exDeclinedUR`. -/
theorem done_on_declined_row_succeeds_witness :
    (handle_reviewer_done exDeclinedUR "alice" 7 9).2 = DoneResult.doneOk :=
  (done_on_declined_row_succeeds exDeclinedUR "alice" rowADeclined 7 9
    (Or.inl (by decide)) (by decide) (by decide)).1

/-! ## C1 -/

/-- C1 (exhibit of the code bug): handle_reviewer_accept never inspects the
submission status, so a stale accept on the pending row of an already
rejected submission confirms the row and, the active set being all-confirmed,
drives the status back to under_review — a backward move out of a terminal
status caused by a plain Accept, with no override involved. -/
theorem accept_resurrects_rejected_submission :
    exRejected.status = SStatus.rejected
    ∧ (handle_reviewer_accept exRejected "alice" 9 100 5).1.status =
        SStatus.underReview := by
  decide

/-! ## C7 -/

/-- Events: alice accepts (entering under_review and scheduling a follow-up),
the operator overrides the reviewer set to bob, bob accepts (re-entering
under_review and scheduling a second follow-up). -/
def exOverrideTrace : List Ev :=
  [Ev.accept "alice" 11 0 5, Ev.override ["bob"], Ev.accept "bob" 12 1 5]

/-- C7 (exhibit of the code bug): _transition_to_under_review always inserts a
fresh followup and never cancels existing unsent ones, so an override while
under review followed by a re-entry leaves a submission in under_review with
two unsent followup rows, violating the at-most-one-unsent invariant. -/
theorem override_reentry_duplicates_followups :
    (run exA exOverrideTrace).status = SStatus.underReview
    ∧ ((run exA exOverrideTrace).followups.filter
        (fun f => f.sentAt == none)).length = 2 := by
  decide

/-! ## C2 -/

/-- C2 counterexample: `exProposal` carries an active rejection proposal with
zero seconders, yet confirming (no operator configured) sets the submission's
status to rejected — handle_confirm_rejection performs no seconder-count
check. -/
theorem confirm_without_seconders_rejects :
    ((get_active_rejection exProposal).map (fun x => x.seconds.length)) = some 0
    ∧ (handle_confirm_rejection exProposal 7 none).1.status = SStatus.rejected := by
  decide

/-- C2 amended: handle_confirm_rejection itself is gated only by the operator
check — any authorized call sets status rejected regardless of seconder
count; the threshold instead gates the confirm-button affordance, which
handle_second attaches exactly when the updated seconder count reaches 2. -/
theorem confirm_ungated_and_second_gates_button :
    (∀ (s : SubState) (caller : Int) (op : Option Int),
      op = none ∨ op = some caller →
      (handle_confirm_rejection s caller op).1.status = SStatus.rejected)
    ∧ (∀ (s s2 : SubState) (u : String) (b : Bool) (c : Nat),
      handle_second s u = (s2, SecondResult.recorded b c) → (b = true ↔ 2 ≤ c)) := by
  constructor
  · intro s caller op hop
    rcases hop with h | h
    · subst h; rfl
    · subst h; simp [handle_confirm_rejection]
  · intro s s2 u b c hsec
    cases hrej : get_active_rejection s with
    | none =>
      simp only [handle_second, hrej] at hsec
      simp at hsec
    | some rej =>
      simp only [handle_second, hrej] at hsec
      by_cases hself : u = rej.proposedBy
      · rw [if_pos hself] at hsec; simp at hsec
      · rw [if_neg hself] at hsec
        by_cases h2 : 2 ≤ (add_second_to_rejection s rej.rjid u).2.length
        · rw [if_pos h2] at hsec
          cases hsec
          simp [h2]
        · rw [if_neg h2] at hsec
          cases hsec
          simp [h2]

/-- Witness for the amended C2: confirming the zero-seconder proposal still
rejects, and a second seconder flips the affordance at count 2. -/
theorem confirm_ungated_and_second_gates_button_witness :
    (handle_confirm_rejection exProposal 7 none).1.status = SStatus.rejected
    ∧ (true = true ↔ 2 ≤ 2) :=
  ⟨confirm_ungated_and_second_gates_button.1 exProposal 7 none (Or.inl rfl),
   confirm_ungated_and_second_gates_button.2 exProposal1
     ((handle_second exProposal1 "dave").1) "dave" true 2 (by decide)⟩

/-! ## C9 -/

/-- C9 counterexample: on a non-JSON oracle answer the parser reports the
invalid-response error after exactly one json.loads attempt — no second parse
attempt precedes the error. -/
theorem parse_json_fails_after_single_attempt :
    (parse_json_response (fun _ : String => (none : Option Unit)) "not json").1 =
      Except.error "LLM returned invalid JSON"
    ∧ (parse_json_response (fun _ : String => (none : Option Unit)) "not json").2 = 1 :=
  ⟨rfl, rfl⟩

/-- C9 amended: for every oracle response the parser hands json.loads the
fence-stripped text and makes exactly one parse attempt, failing with the
invalid-response error precisely when that single attempt fails; surrounding
code-fence markup (with an optional json tag) is removed before parsing. -/
theorem parse_json_single_attempt_spec :
    (∀ (J : Type) (loads : String → Option J) (raw : String),
      (parse_json_response loads raw).2 = 1
      ∧ ((parse_json_response loads raw).1 =
          Except.error "LLM returned invalid JSON" ↔ loads (stripFences raw) = none))
    ∧ stripFences "```json\n\x7b\"reviewer1\": \"alice\"\x7d\n```" =
        "\x7b\"reviewer1\": \"alice\"\x7d" := by
  constructor
  · intro J loads raw
    simp only [parse_json_response]
    cases hl : loads (stripFences raw) <;> simp [hl]
  · decide

/-- Witness for the amended C9 at a concrete failing parser. -/
theorem parse_json_single_attempt_spec_witness :
    (parse_json_response (fun _ : String => (none : Option Unit)) "x").2 = 1 :=
  (parse_json_single_attempt_spec.1 Unit (fun _ => none) "x").1

/-! ## C8 -/

theorem sw7 (d : Nat) :
    skipWeekend 7 d = if 5 ≤ weekday d then skipWeekend 6 (d + 1) else d := rfl

theorem sw6 (d : Nat) :
    skipWeekend 6 d = if 5 ≤ weekday d then skipWeekend 5 (d + 1) else d := rfl

theorem sw5 (d : Nat) :
    skipWeekend 5 d = if 5 ≤ weekday d then skipWeekend 4 (d + 1) else d := rfl

/-- The weekend-skipping loop started on the day after `d`: a Friday start
jumps three days, a Saturday start two, anything else one. -/
theorem skipWeekend7_eq (d : Nat) :
    skipWeekend 7 (d + 1) =
      if d % 7 = 4 then d + 3
      else if d % 7 = 5 then d + 2
      else d + 1 := by
  rcases (by omega :
      d % 7 = 0 ∨ d % 7 = 1 ∨ d % 7 = 2 ∨ d % 7 = 3 ∨ d % 7 = 4 ∨
      d % 7 = 5 ∨ d % 7 = 6) with h | h | h | h | h | h | h
  · have m1 : (d + 1) % 7 = 1 := by omega
    simp [sw7, weekday, m1, h]
  · have m1 : (d + 1) % 7 = 2 := by omega
    simp [sw7, weekday, m1, h]
  · have m1 : (d + 1) % 7 = 3 := by omega
    simp [sw7, weekday, m1, h]
  · have m1 : (d + 1) % 7 = 4 := by omega
    simp [sw7, weekday, m1, h]
  · have m1 : (d + 1) % 7 = 5 := by omega
    have m2 : (d + 1 + 1) % 7 = 6 := by omega
    have m3 : (d + 1 + 1 + 1) % 7 = 0 := by omega
    simp [sw7, sw6, sw5, weekday, m1, m2, m3, h]
  · have m1 : (d + 1) % 7 = 6 := by omega
    have m2 : (d + 1 + 1) % 7 = 0 := by omega
    simp [sw7, sw6, weekday, m1, m2, h]
  · have m1 : (d + 1) % 7 = 0 := by omega
    simp [sw7, weekday, m1, h]

/-- C8: compute_publish_date with the default 09:30 local time yields the
first calendar day strictly after now that is neither Saturday nor Sunday, at
09:30; in particular Friday maps to the following Monday 09:30, and the
result never falls on a weekend. -/
theorem compute_publish_date_skips_weekend (now : LocalDT) :
    weekday (compute_publish_date now "09:30").day < 5
    ∧ now.day < (compute_publish_date now "09:30").day
    ∧ (∀ e, now.day < e → e < (compute_publish_date now "09:30").day →
        5 ≤ weekday e)
    ∧ (compute_publish_date now "09:30").hour = 9
    ∧ (compute_publish_date now "09:30").minute = 30
    ∧ (weekday now.day = 4 →
        compute_publish_date now "09:30" =
          { day := now.day + 3, hour := 9, minute := 30 }
        ∧ weekday (now.day + 3) = 0) := by
  have hpt : parsePublishTime "09:30" = (9, 30) := by decide
  have hday : (compute_publish_date now "09:30").day =
      (if now.day % 7 = 4 then now.day + 3
       else if now.day % 7 = 5 then now.day + 2
       else now.day + 1) := by
    simp [compute_publish_date, skipWeekend7_eq]
  refine ⟨?_, ?_, ?_, ?_, ?_, ?_⟩
  · rw [hday]; unfold weekday
    split
    · omega
    · split <;> omega
  · rw [hday]
    split
    · omega
    · split <;> omega
  · intro e he1 he2
    rw [hday] at he2
    unfold weekday
    split at he2 <;> [skip; split at he2] <;> omega
  · simp [compute_publish_date, hpt]
  · simp [compute_publish_date, hpt]
  · intro hf
    have hf4 : now.day % 7 = 4 := hf
    constructor
    · simp [compute_publish_date, skipWeekend7_eq, hf4, hpt]
    · unfold weekday; omega

/-- Witness for C8: Friday (day 4) maps to Monday (day 7) at 09:30. -/
theorem compute_publish_date_skips_weekend_witness :
    compute_publish_date { day := 4, hour := 17, minute := 0 } "09:30" =
      { day := 7, hour := 9, minute := 30 } :=
  ((compute_publish_date_skips_weekend
    { day := 4, hour := 17, minute := 0 }).2.2.2.2.2 (by decide)).1

/-! ## C3 -/

theorem foldl_assign_subs (sid : Nat) (l : List String) :
    ∀ acc : Store,
      (l.foldl (fun acc r =>
        { acc with
          assigns := acc.assigns ++ [(sid, r)]
          history := acc.history ++ [(sid, r)] }) acc).subs = acc.subs := by
  induction l with
  | nil => intro acc; rfl
  | cons a t ih => intro acc; rw [List.foldl_cons, ih]

/-- After intake of a fresh gmail id, the stored submissions are the old ones
plus the new row, all possibly retouched by a gmail-id-preserving status
update. -/
theorem hns_subs_char (st : Store) (e : EmailData) (o : Option OracleAssignment)
    (hex : get_submission_by_gmail_id st e.gmail_message_id = none) :
    ∃ g : Submission → Submission,
      (∀ x, (g x).gmail_message_id = x.gmail_message_id) ∧
      (handle_new_submission st e o).subs = (st.subs ++ [mkSub st e]).map g := by
  cases o with
  | none =>
    refine ⟨id, fun x => rfl, ?_⟩
    simp [handle_new_submission, hex]
  | some a =>
    refine ⟨fun x => if x.sid == (mkSub st e).sid then
      { x with status := SStatus.assigning } else x,
      fun x => by dsimp only; split <;> rfl, ?_⟩
    simp only [handle_new_submission, hex]
    rw [store_update_status]
    rw [foldl_assign_subs]

/-- C3: intake is idempotent on the gmail message id — from a store not yet
holding the id, one call stores exactly one submissions row with that id, and
a second call with the same id is a no-op on the entire store. -/
theorem new_submission_idempotent (st : Store) (e : EmailData)
    (o1 o2 : Option OracleAssignment) :
    (get_submission_by_gmail_id st e.gmail_message_id = none →
      countByGmailId (handle_new_submission st e o1) e.gmail_message_id = 1)
    ∧ handle_new_submission (handle_new_submission st e o1) e o2 =
        handle_new_submission st e o1 := by
  cases hex : get_submission_by_gmail_id st e.gmail_message_id with
  | some x =>
    have h1 : handle_new_submission st e o1 = st := by
      simp [handle_new_submission, hex]
    constructor
    · intro hnone
      exact absurd hnone (by simp)
    · rw [h1]
      simp [handle_new_submission, hex]
  | none =>
    obtain ⟨g, hg, hsubs⟩ := hns_subs_char st e o1 hex
    have hfe : st.subs.filter
        (fun s => s.gmail_message_id == e.gmail_message_id) = [] := by
      have h0 := hex
      unfold get_submission_by_gmail_id at h0
      exact List.head?_eq_none_iff.1 h0
    have hfilter : (handle_new_submission st e o1).subs.filter
        (fun s => s.gmail_message_id == e.gmail_message_id) = [g (mkSub st e)] := by
      rw [hsubs, filter_map_of_pres _ _ (fun x => by rw [hg]),
        List.filter_append, hfe]
      simp [mkSub]
    constructor
    · intro _
      unfold countByGmailId
      rw [hfilter]
      rfl
    · have hsome : get_submission_by_gmail_id (handle_new_submission st e o1)
          e.gmail_message_id = some (g (mkSub st e)) := by
        unfold get_submission_by_gmail_id
        rw [hfilter]
        rfl
      generalize hgen : handle_new_submission st e o1 = r1 at hsome ⊢
      simp [handle_new_submission, hsome]

/-- Witness for C3 at a concrete empty store and email. -/
theorem new_submission_idempotent_witness :
    countByGmailId
      (handle_new_submission
        { subs := [], nextSid := 1, assigns := [], history := [] }
        { gmail_message_id := "m1", gmail_thread_id := none, title := "T",
          author_name := "A", author_email := "a@x", medium_url := none,
          email_subject := "S", email_body := "B" }
        (some { reviewer1 := "alice", reviewer2 := "", category := "c",
                reason_zh := "r" })) "m1" = 1 :=
  (new_submission_idempotent
    { subs := [], nextSid := 1, assigns := [], history := [] }
    { gmail_message_id := "m1", gmail_thread_id := none, title := "T",
      author_name := "A", author_email := "a@x", medium_url := none,
      email_subject := "S", email_body := "B" }
    (some { reviewer1 := "alice", reviewer2 := "", category := "c",
            reason_zh := "r" })
    none).1 (by decide)

/-! ## C6 -/

theorem latest_update_ne (s : SubState) (u r : String) (st : AStatus)
    (tg : Option Int) (now : Nat) (hur : u ≠ r) :
    get_assignment (update_assignment_status s u st tg now) r =
      get_assignment s r := by
  unfold get_assignment update_assignment_status
  rw [filter_map_id (updRow u st tg now) (fun b => b.user == r)
    (fun b => by dsimp only; rw [updRow_user])
    (fun b hb => by
      have hbe : (b.user == u) = false := by
        rw [eq_of_beq hb]
        exact beq_eq_false_iff_ne.2 (Ne.symm hur)
      simp [updRow, hbe])]

theorem latest_done_ne (s : SubState) (u r : String)
    (tg : Option Int) (now : Nat) (hur : u ≠ r) :
    get_assignment (mark_assignment_done s u tg now) r = get_assignment s r := by
  unfold get_assignment mark_assignment_done
  rw [filter_map_id (doneRow u tg now) (fun b => b.user == r)
    (fun b => by dsimp only; rw [doneRow_user])
    (fun b hb => by
      have hbe : (b.user == u) = false := by
        rw [eq_of_beq hb]
        exact beq_eq_false_iff_ne.2 (Ne.symm hur)
      simp [doneRow, hbe])]

theorem latest_insert_ne (s : SubState) (u r : String) (hur : u ≠ r) :
    get_assignment (insert_assignment s u) r = get_assignment s r := by
  unfold get_assignment insert_assignment
  rw [List.filter_append]
  have hone : List.filter (fun b => b.user == r)
      [({ rid := s.nextRid, user := u, status := AStatus.pending,
          tgId := none, respondedAt := none, doneAt := none } : AssignRow)] = [] := by
    simp [List.filter, beq_eq_false_iff_ne.2 hur]
  rw [hone, List.append_nil]

theorem map_user_update (s : SubState) (u : String) (st : AStatus)
    (tg : Option Int) (now : Nat) :
    (update_assignment_status s u st tg now).rows.map (fun b => b.user) =
      s.rows.map (fun b => b.user) := by
  unfold update_assignment_status
  rw [List.map_map]
  exact List.map_congr_left (fun b _ => updRow_user u st tg now b)

/-- Events that may lawfully touch the declining reviewer's recorded decline:
a done-marking by that reviewer or an operator override. -/
def touchesDecline (r : String) : Ev → Bool
  | Ev.markDone u _ _ => u == r
  | Ev.override _ => true
  | _ => false

/-- One event that is neither a done-marking by `r` nor an override leaves the
most recent assignment row of `r` declined. -/
theorem step_keeps_declined (r : String) (s : SubState) (e : Ev)
    (he : touchesDecline r e = false)
    (h : latestStatus s r = some AStatus.declined) :
    latestStatus (step s e) r = some AStatus.declined := by
  obtain ⟨a, ha, hda⟩ :
      ∃ a, get_assignment s r = some a ∧ a.status = AStatus.declined := by
    unfold latestStatus at h
    cases hg : get_assignment s r with
    | none => rw [hg] at h; simp at h
    | some a =>
      rw [hg] at h
      exact ⟨a, rfl, by simpa using h⟩
  have hkeep : get_assignment (step s e) r = get_assignment s r := by
    cases e with
    | accept u tg now interval =>
      by_cases hur : u = r
      · subst hur
        show get_assignment (handle_reviewer_accept s u tg now interval).1 u =
          get_assignment s u
        simp only [handle_reviewer_accept, ha]
        rw [if_pos (by simp [hda])]
        exact ha
      · show get_assignment (handle_reviewer_accept s u tg now interval).1 r =
          get_assignment s r
        cases hb : get_assignment s u with
        | none => simp only [handle_reviewer_accept, hb]
        | some b =>
          simp only [handle_reviewer_accept, hb]
          split
          · rfl
          · split <;> exact latest_update_ne s u r _ _ _ hur
    | decline u tg oracle now =>
      by_cases hur : u = r
      · subst hur
        show get_assignment (handle_reviewer_decline s u tg oracle now).1 u =
          get_assignment s u
        simp only [handle_reviewer_decline, ha]
        rw [if_pos (by simp [hda])]
        exact ha
      · show get_assignment (handle_reviewer_decline s u tg oracle now).1 r =
          get_assignment s r
        cases hb : get_assignment s u with
        | none => simp only [handle_reviewer_decline, hb]
        | some b =>
          cases oracle with
          | none =>
            simp only [handle_reviewer_decline, hb]
            split
            · rfl
            · exact latest_update_ne s u r _ _ _ hur
          | some cand =>
            simp only [handle_reviewer_decline, hb]
            split
            · rfl
            · split
              · exact latest_update_ne s u r _ _ _ hur
              · rename_i hcond
                have hcf := Bool.of_not_eq_true hcond
                have hcont := (Bool.or_eq_false_iff.1 hcf).2
                have hcr : pyStrip cand ≠ r := by
                  intro heq
                  have hrmem : r ∈ (update_assignment_status s u AStatus.declined
                      (some tg) now).rows.map (fun b => b.user) := by
                    rw [map_user_update]
                    exact List.mem_map.2 ⟨a, mem_rows_of_get_assignment ha,
                      eq_of_beq (user_of_get_assignment ha)⟩
                  have hmm : pyLower (pyStrip cand) ∈
                      ((update_assignment_status s u AStatus.declined
                        (some tg) now).rows.map (fun b => b.user)).map pyLower := by
                    rw [heq]
                    exact List.mem_map.2 ⟨r, hrmem, rfl⟩
                  have htrue : (((update_assignment_status s u AStatus.declined
                      (some tg) now).rows.map (fun b => b.user)).map pyLower).contains
                        (pyLower (pyStrip cand)) = true := by
                    simpa using hmm
                  rw [htrue] at hcont
                  exact Bool.noConfusion hcont
                show get_assignment (insert_assignment
                  (update_assignment_status s u AStatus.declined (some tg) now)
                  (pyStrip cand)) r = get_assignment s r
                rw [latest_insert_ne
                  (update_assignment_status s u AStatus.declined (some tg) now)
                  (pyStrip cand) r hcr]
                exact latest_update_ne s u r _ _ _ hur
    | markDone u tg now =>
      have hur : u ≠ r := by
        intro heq
        rw [heq] at he
        simp [touchesDecline] at he
      show get_assignment (handle_reviewer_done s u tg now).1 r =
        get_assignment s r
      simp only [handle_reviewer_done]
      split
      · rfl
      · cases hb : get_assignment s u with
        | none => simp only [hb]
        | some b =>
          simp only [hb]
          split
          · rfl
          · split <;> exact latest_done_ne s u r _ _ hur
    | propose u reason => rfl
    | second u =>
      show get_assignment (handle_second s u).1 r = get_assignment s r
      cases hrj : get_active_rejection s with
      | none => simp only [handle_second, hrj]
      | some rej =>
        simp only [handle_second, hrj]
        split
        · rfl
        · split <;> rfl
    | confirm c op =>
      show get_assignment (handle_confirm_rejection s c op).1 r =
        get_assignment s r
      simp only [handle_confirm_rejection]
      split <;> rfl
    | override rs => simp [touchesDecline] at he
    | followup fid now interval =>
      show get_assignment (send_followup s fid now interval) r =
        get_assignment s r
      simp only [send_followup]
      split
      · rfl
      · split <;> rfl
  unfold latestStatus at h ⊢
  rw [hkeep]
  exact h

/-- Any sequence of such events keeps the row declined. -/
theorem run_keeps_declined (r : String) (evs : List Ev) :
    ∀ s : SubState, (∀ e ∈ evs, touchesDecline r e = false) →
      latestStatus s r = some AStatus.declined →
      latestStatus (run s evs) r = some AStatus.declined := by
  induction evs with
  | nil => exact fun s _ h => h
  | cons e t ih =>
    intro s hall h
    show latestStatus (run (step s e) t) r = some AStatus.declined
    exact ih (step s e) (fun x hx => hall x (List.mem_cons_of_mem _ hx))
      (step_keeps_declined r s e (hall e (List.mem_cons_self _ _)) h)

/-- C6 counterexample: after alice's decline on `exAB` succeeds with
replacement carol, a later done-marking by alice flips her declined row to
done — the declined status is not permanent. -/
theorem declined_row_changed_by_later_done :
    (handle_reviewer_decline exAB "alice" 7 (some "carol") 3).2 =
      DeclineResult.replaced "carol"
    ∧ latestStatus (handle_reviewer_decline exAB "alice" 7 (some "carol") 3).1
        "alice" = some AStatus.declined
    ∧ latestStatus
        (handle_reviewer_done
          (handle_reviewer_decline exAB "alice" 7 (some "carol") 3).1
          "alice" 7 4).1 "alice" = some AStatus.done := by
  decide

/-- C6 amended: a decline whose oracle replacement passes validation appends
exactly one new pending row, for the replacement reviewer, and leaves the
declining reviewer's row declined; the row then stays declined under every
subsequent event except a done-marking by that same reviewer (which sets it
to done) or an operator override (which deletes pending/declined rows). -/
theorem decline_replacement_row_and_persistence
    (s : SubState) (r : String) (a : AssignRow) (tg : Int) (cand : String)
    (now : Nat)
    (h : get_assignment s r = some a) (hp : a.status = AStatus.pending)
    (hc1 : (pyStrip cand == "") = false)
    (hc2 : ((s.rows.map (fun b => b.user)).map pyLower).contains
        (pyLower (pyStrip cand)) = false) :
    (handle_reviewer_decline s r tg (some cand) now).2 =
        DeclineResult.replaced (pyStrip cand)
    ∧ (handle_reviewer_decline s r tg (some cand) now).1.rows =
        (s.rows.map (updRow r AStatus.declined (some tg) now)) ++
          [{ rid := s.nextRid, user := pyStrip cand, status := AStatus.pending,
             tgId := none, respondedAt := none, doneAt := none }]
    ∧ latestStatus (handle_reviewer_decline s r tg (some cand) now).1 r =
        some AStatus.declined
    ∧ ∀ evs : List Ev, (∀ e ∈ evs, touchesDecline r e = false) →
        latestStatus
          (run (handle_reviewer_decline s r tg (some cand) now).1 evs) r =
          some AStatus.declined := by
  have hu : (a.user == r) = true := user_of_get_assignment h
  have hcr : pyStrip cand ≠ r := by
    intro heq
    have hrmem : r ∈ s.rows.map (fun b => b.user) :=
      List.mem_map.2 ⟨a, mem_rows_of_get_assignment h, eq_of_beq hu⟩
    have hmem2 : pyLower (pyStrip cand) ∈
        (s.rows.map (fun b => b.user)).map pyLower := by
      rw [heq]
      exact List.mem_map.2 ⟨r, hrmem, rfl⟩
    have htrue : ((s.rows.map (fun b => b.user)).map pyLower).contains
        (pyLower (pyStrip cand)) = true := by
      simpa using hmem2
    rw [htrue] at hc2
    exact Bool.noConfusion hc2
  have hcondf : (pyStrip cand == "" ||
      (((update_assignment_status s r AStatus.declined (some tg) now).rows.map
        (fun b => b.user)).map pyLower).contains (pyLower (pyStrip cand))) = false := by
    rw [map_user_update]
    exact Bool.or_eq_false_iff.2 ⟨hc1, hc2⟩
  have hred : handle_reviewer_decline s r tg (some cand) now =
      (insert_assignment
        (update_assignment_status s r AStatus.declined (some tg) now)
        (pyStrip cand),
       DeclineResult.replaced (pyStrip cand)) := by
    simp only [handle_reviewer_decline, h]
    rw [if_neg (by simp [hp]),
      if_neg (by rw [hcondf]; exact Bool.false_ne_true)]
  have hlat : latestStatus (handle_reviewer_decline s r tg (some cand) now).1 r =
      some AStatus.declined := by
    rw [hred]
    unfold latestStatus
    rw [latest_insert_ne _ _ _ hcr, get_assignment_update, h]
    simp [updRow, hu]
  refine ⟨by rw [hred], by rw [hred]; rfl, hlat,
    fun evs hall => run_keeps_declined r evs _ hall hlat⟩

/-- Witness for the amended C6 on `exAB`: alice declines, carol is proposed,
and a run of accept/done/second events by others keeps alice's row declined. -/
theorem decline_replacement_row_and_persistence_witness :
    latestStatus
      (run (handle_reviewer_decline exAB "alice" 7 (some " carol ") 3).1
        [Ev.accept "carol" 9 5 5, Ev.markDone "bob" 8 6, Ev.second "dave"])
      "alice" = some AStatus.declined :=
  (decline_replacement_row_and_persistence exAB "alice" rowA 7 " carol " 3
    (by decide) (by decide) (by decide) (by decide)).2.2.2
    [Ev.accept "carol" 9 5 5, Ev.markDone "bob" 8 6, Ev.second "dave"]
    (by decide)

end TemBot
